import Mathlib

/-!
Verification of the N-Queens benchmark harness
(`scripts/run_nqueens_benchmarks.py` and `scripts/plot_nqueens_results.py`).

The Python source is shallowly embedded: pure computations become Lean
functions on `List Char` / `String`, Python `int` becomes `Int`/`Nat`,
Python `float` values reachable in this program are exact decimal numbers
(`PyFloat`, a mantissa together with a power-of-ten denominator), and
side-effecting routines are modelled by the sequence of external effects
they perform (build commands run, file operations issued).
-/

namespace NQueens

/-! ## Generic helpers -/

/-- First `some` result of `f` over the list, scanning left to right. -/
def firstSome {α β : Type} (f : α → Option β) : List α → Option β
  | [] => none
  | a :: as =>
    match f a with
    | some b => some b
    | none => firstSome f as

/-- `[n, n-1, ..., 0]`: candidate consumption lengths for a greedy `*`. -/
def descList : Nat → List Nat
  | 0 => [0]
  | n + 1 => (n + 1) :: descList n

/-- `[n, n-1, ..., 1]`: candidate consumption lengths for a greedy `+`. -/
def descListPos : Nat → List Nat
  | 0 => []
  | n + 1 => (n + 1) :: descListPos n

/-- Decimal value of a digit list, most significant first
(models Python `int` applied to a digit string). -/
def digitsToNat (cs : List Char) : Nat :=
  cs.foldl (fun a c => a * 10 + (c.toNat - 48)) 0

/-! ## A backtracking regular-expression matcher

`re.search` with the fixed pattern
`NQUEENS_METRICS\s+[^n]*n=(\d+)\s+[^s]*solutions=([0-9.]+)\s+[^n]*nodes=(\d+)`
is embedded by a leftmost, greedy, backtracking matcher over an element
list: literal strings, character-class `*` and `+`, and capturing
character-class `+`.  This covers exactly the constructs the pattern uses
and mirrors Python's backtracking order (longest first, then shorter). -/

inductive RElem where
  | lit : List Char → RElem
  | cstar : (Char → Bool) → RElem
  | cplus : (Char → Bool) → RElem
  | gplus : (Char → Bool) → RElem

/-- Match an element sequence at the head of `cs`, returning the list of
captured groups.  Greedy quantifiers try the longest consumption first and
backtrack to shorter ones, as Python's engine does. -/
def matchSeq : List RElem → List Char → Option (List (List Char))
  | [], _ => some []
  | RElem.lit s :: rest, cs =>
    if s.isPrefixOf cs then matchSeq rest (cs.drop s.length) else none
  | RElem.cstar p :: rest, cs =>
    firstSome (fun k => matchSeq rest (cs.drop k))
      (descList ((cs.takeWhile p).length))
  | RElem.cplus p :: rest, cs =>
    firstSome (fun k => matchSeq rest (cs.drop k))
      (descListPos ((cs.takeWhile p).length))
  | RElem.gplus p :: rest, cs =>
    firstSome (fun k => (matchSeq rest (cs.drop k)).map (fun gs => cs.take k :: gs))
      (descListPos ((cs.takeWhile p).length))

/-- `re.search`: try every start position left to right, leftmost match wins. -/
def reSearch (es : List RElem) (cs : List Char) : Option (List (List Char)) :=
  firstSome (fun i => matchSeq es (cs.drop i)) (List.range (cs.length + 1))

/-! ## Python character classes (ASCII fragment)

`\s`, `str.strip` and `str.splitlines` use Unicode character sets; the
embedding covers their ASCII/Latin-1 members plus the two Unicode line
separators, which is exhaustive for the byte-oriented program output the
harness consumes. -/

/-- Python regex `\s` (ASCII part). -/
def isReSpace (c : Char) : Bool :=
  c = ' ' || c = '\t' || c = '\n' || c = '\r' || c = '\x0b' || c = '\x0c'

/-- Line-boundary characters of `str.splitlines`. -/
def isLineBreak (c : Char) : Bool :=
  c = '\n' || c = '\r' || c = '\x0b' || c = '\x0c' || c = '\x1c' ||
  c = '\x1d' || c = '\x1e' || c = '\x85' || c = '\u2028' || c = '\u2029'

/-- Whitespace stripped by `str.strip()`. -/
def isStripSpace (c : Char) : Bool :=
  isLineBreak c || c = ' ' || c = '\t' || c = '\x1f' || c = '\xa0'

/-- `str.strip()`. -/
def pyStrip (cs : List Char) : List Char :=
  ((cs.dropWhile isStripSpace).reverse.dropWhile isStripSpace).reverse

/-- `str.splitlines()`, with `\r\n` as a single boundary and no empty
final line after a trailing boundary. -/
def pySplitlines : List Char → List (List Char)
  | [] => []
  | '\r' :: '\n' :: rest => [] :: pySplitlines rest
  | c :: rest =>
    if isLineBreak c then
      [] :: pySplitlines rest
    else
      match pySplitlines rest with
      | [] => [[c]]
      | l :: ls => (c :: l) :: ls

/-! ## The metrics extractor (`parse_metrics`) -/

/-- The compiled `METRIC_PATTERN`. -/
def metricPattern : List RElem :=
  [ RElem.lit "NQUEENS_METRICS".data,
    RElem.cplus isReSpace,
    RElem.cstar (fun c => c != 'n'),
    RElem.lit "n=".data,
    RElem.gplus Char.isDigit,
    RElem.cplus isReSpace,
    RElem.cstar (fun c => c != 's'),
    RElem.lit "solutions=".data,
    RElem.gplus (fun c => c.isDigit || c = '.'),
    RElem.cplus isReSpace,
    RElem.cstar (fun c => c != 'n'),
    RElem.lit "nodes=".data,
    RElem.gplus Char.isDigit ]

/-- The loop of `parse_metrics`: scan lines in order, keep the groups of
the last line on which the search succeeds. -/
def lastMatch (lines : List (List Char)) : Option (List (List Char)) :=
  lines.foldl
    (fun acc l =>
      match reSearch metricPattern l with
      | some gs => some gs
      | none => acc)
    none

/-- A Python `float` value reachable in this program: an exact decimal
`mantissa / 10 ^ exp10`.  Both `float()` applied to the digits-and-dots
strings the metric pattern captures and the binary floats produced by
`time.perf_counter()` denote exact decimal rationals, which this type
represents without rounding. -/
structure PyFloat where
  mantissa : Int
  exp10 : Nat
deriving DecidableEq, Repr

/-- Rational value of a `PyFloat`. -/
def PyFloat.val (f : PyFloat) : ℚ :=
  (f.mantissa : ℚ) / (10 : ℚ) ^ f.exp10

/-- Python `float()` applied to a captured `[0-9.]+` group: digits with at
most one dot; `"."` alone or a second dot raises `ValueError` (`none`). -/
def floatOfGroup (cs : List Char) : Option PyFloat :=
  let intPart := cs.takeWhile (fun c => c != '.')
  match cs.dropWhile (fun c => c != '.') with
  | [] => if intPart.isEmpty then none else some ⟨(digitsToNat intPart : Int), 0⟩
  | _ :: frac =>
    if frac.any (fun c => c = '.') then none
    else if intPart.isEmpty && frac.isEmpty then none
    else some ⟨(digitsToNat (intPart ++ frac) : Int), frac.length⟩

/-- Failure modes of metric extraction: no qualifying line
(`RuntimeError` in the source) or an unparseable solutions field
(`ValueError` from `float()`), plus an unreachable group-shape error. -/
inductive MetricsError where
  | noMetrics
  | badFloat
  | badShape
deriving DecidableEq, Repr

/-- `parse_metrics`: strip the output, split into lines, keep the last
line matching `METRIC_PATTERN`, and convert its three groups. -/
def parse_metrics (stdout : String) : Except MetricsError (Nat × PyFloat × Nat) :=
  match lastMatch (pySplitlines (pyStrip stdout.data)) with
  | none => Except.error MetricsError.noMetrics
  | some gs =>
    match gs with
    | [g1, g2, g3] =>
      match floatOfGroup g2 with
      | none => Except.error MetricsError.badFloat
      | some sol => Except.ok (digitsToNat g1, sol, digitsToNat g3)
    | _ => Except.error MetricsError.badShape

/-! ## Preparers (`ensure_buddy`, `ensure_sylvan`, `ensure_cudd`,
`ensure_jdd`, `ensure_jsylvan`)

Each preparer is modelled as a function from the filesystem facts it
inspects (which artifacts exist) to the list of external build commands it
runs, in order.  `chmod` permission fix-ups and `mkdir` are filesystem
adjustments, not build steps, and are not part of the command list. -/

inductive BuildStep where
  | buddyConfigure
  | buddyMake
  | buddyMakeQueen
  | sylvanCMakeConfigure
  | sylvanCMakeBuild
  | cuddConfigure
  | cuddMake
  | cuddGcc
  | jddGradlewClasses
  | jsylvanBuildScript
  | jsylvanMvnPackage
deriving DecidableEq, Repr

/-- Artifacts `ensure_buddy` checks: `BuDDy/config.status`,
`BuDDy/src/libbdd.la`, and the terminal `BuDDy/examples/queen/queen`. -/
structure BuddyArtifacts where
  configStatus : Bool
  lib : Bool
  exe : Bool
deriving DecidableEq, Repr

/-- `ensure_buddy`: conditional configure, conditional make, conditional
make of the queen example, then an unconditional final make of the queen
example. -/
def ensure_buddy (fs : BuddyArtifacts) : List BuildStep :=
  (if fs.configStatus then [] else [BuildStep.buddyConfigure]) ++
    (if fs.lib then [] else [BuildStep.buddyMake]) ++
    (if fs.exe then [] else [BuildStep.buddyMakeQueen]) ++
    [BuildStep.buddyMakeQueen]

/-- `ensure_sylvan`: return immediately when
`sylvan/build/examples/nqueens_fast` exists, otherwise configure and build
with cmake. -/
def ensure_sylvan (binaryExists : Bool) : List BuildStep :=
  if binaryExists then []
  else [BuildStep.sylvanCMakeConfigure, BuildStep.sylvanCMakeBuild]

/-- Artifacts `ensure_cudd` checks: `cudd/config.status`,
`cudd/cudd/.libs/libcudd.a`, and the terminal `cudd/bin/nqueens_bdd`. -/
structure CuddArtifacts where
  configStatus : Bool
  lib : Bool
  exe : Bool
deriving DecidableEq, Repr

/-- `ensure_cudd`: configure/make only when the library is missing, then
compile the example only when the executable is missing. -/
def ensure_cudd (fs : CuddArtifacts) : List BuildStep :=
  (if fs.lib then []
   else
     (if fs.configStatus then [] else [BuildStep.cuddConfigure]) ++
       [BuildStep.cuddMake]) ++
    (if fs.exe then [] else [BuildStep.cuddGcc])

/-- `ensure_jdd`: return immediately when the compiled `BDDQueens.class`
exists, otherwise run the gradle build. -/
def ensure_jdd (classExists : Bool) : List BuildStep :=
  if classExists then [] else [BuildStep.jddGradlewClasses]

/-- `ensure_jsylvan`: build the native library when missing, then package
the jar when missing. -/
def ensure_jsylvan (nativeLib jar : Bool) : List BuildStep :=
  (if nativeLib then [] else [BuildStep.jsylvanBuildScript]) ++
    (if jar then [] else [BuildStep.jsylvanMvnPackage])

/-! ## Run executor (`run_implementation`) -/

/-- One Result Record, field for field the dict built by
`run_implementation`. -/
structure ResultRecord where
  implementation : String
  language : String
  size : Nat
  time_sec : PyFloat
  max_rss_kb : Int
  nodes : Nat
  solutions : PyFloat
deriving DecidableEq, Repr

/-- The message the measurement worker sends back: exit code, captured
streams, elapsed wall-clock seconds, peak RSS, and the command run. -/
structure RawOutcome where
  returncode : Int
  stdout : String
  stderr : String
  elapsed : PyFloat
  maxRss : Int
  cmd : List String
deriving DecidableEq, Repr

/-- Failure modes of one trial: `subprocess.CalledProcessError` carrying
the exit code, command and captured streams; a metrics-extraction
failure; or the size-mismatch `RuntimeError`. -/
inductive RunError where
  | calledProcess (returncode : Int) (cmd : List String) (stdout stderr : String)
  | metrics (e : MetricsError)
  | sizeMismatch (implName : String) (measured expected : Nat)
deriving DecidableEq, Repr

/-- `run_implementation`, given the raw outcome reported by the isolated
executor: non-zero exit raises `CalledProcessError`; otherwise the
metrics are extracted, the reported size is checked against the requested
one, and on success the Result Record is assembled. -/
def run_implementation (implName implLang : String) (size : Nat)
    (r : RawOutcome) : Except RunError ResultRecord :=
  if r.returncode ≠ 0 then
    Except.error (RunError.calledProcess r.returncode r.cmd r.stdout r.stderr)
  else
    match parse_metrics r.stdout with
    | Except.error e => Except.error (RunError.metrics e)
    | Except.ok (measuredSize, solutions, nodes) =>
      if measuredSize ≠ size then
        Except.error (RunError.sizeMismatch implName measuredSize size)
      else
        Except.ok ⟨implName, implLang, size, r.elapsed, r.maxRss, nodes, solutions⟩

/-! ## Sweep driver (`main`) -/

/-- Name and language tag of one registered implementation. -/
structure ImplSpec where
  name : String
  language : String
deriving DecidableEq, Repr

/-- The five implementations, in the order `main` registers them. -/
def registeredImplementations : List ImplSpec :=
  [⟨"BuDDy", "C"⟩, ⟨"Sylvan", "C"⟩, ⟨"CUDD", "C"⟩,
   ⟨"JDD", "Java"⟩, ⟨"JSylvan", "Java"⟩]

inductive SweepEvent where
  | prepare (implName : String)
  | trial (implName : String) (size : Nat)
deriving DecidableEq, Repr

/-- Is this a Preparer invocation? -/
def SweepEvent.isPrepare : SweepEvent → Bool
  | SweepEvent.prepare _ => true
  | SweepEvent.trial _ _ => false

/-- The order of external actions `main` takes: one `ensure_ready` per
implementation, then the nested sweep loops (outer over sizes, inner over
implementations). -/
def sweepTrace (impls : List ImplSpec) (sizes : List Nat) : List SweepEvent :=
  impls.map (fun i => SweepEvent.prepare i.name) ++
    sizes.foldl
      (fun acc size =>
        impls.foldl (fun acc2 i => acc2 ++ [SweepEvent.trial i.name size]) acc)
      []

/-- The `rows` list `main` accumulates, with `record i size` standing for
the Result Record `run_implementation` returns for that trial. -/
def sweepRows (impls : List ImplSpec) (sizes : List Nat)
    (record : ImplSpec → Nat → ResultRecord) : List ResultRecord :=
  sizes.foldl
    (fun acc size => impls.foldl (fun acc2 i => acc2 ++ [record i size]) acc)
    []

/-! ## Result table serialization (`write_results`)

`csv.DictWriter` with the default excel dialect: fields joined by commas,
rows terminated by CRLF, a field quoted exactly when it contains a comma,
a double quote, or a CR/LF character, with embedded double quotes
doubled.  Numeric values are rendered with `str`. -/

/-- Decimal digit characters of a natural number, via repeated division;
the accumulator holds the less significant digits already produced, and
the first argument is a structural-recursion bound (any value at least
the number itself is sufficient). -/
def natDigitsAux : Nat → Nat → List Char → List Char
  | 0, _, acc => acc
  | fuel + 1, n, acc =>
    if n = 0 then acc
    else natDigitsAux fuel (n / 10) (Char.ofNat (n % 10 + 48) :: acc)

/-- `str` of a non-negative integer. -/
def natToChars (n : Nat) : List Char :=
  if n = 0 then ['0'] else natDigitsAux n n []

/-- `str` of a Python `int`. -/
def intToChars (n : Int) : List Char :=
  if n < 0 then '-' :: natToChars n.natAbs else natToChars n.natAbs

/-- Left-pad a digit list with zeros to length at least `e + 1`. -/
def padZeros (e : Nat) (ds : List Char) : List Char :=
  List.replicate (e + 1 - ds.length) '0' ++ ds

/-- `str` of a `PyFloat`: the exact decimal rendering of
`mantissa / 10 ^ exp10`, with the decimal point placed `exp10` digits
from the right. -/
def floatToChars (f : PyFloat) : List Char :=
  if f.exp10 = 0 then intToChars f.mantissa
  else
    let sign : List Char := if f.mantissa < 0 then ['-'] else []
    let ds := padZeros f.exp10 (natToChars f.mantissa.natAbs)
    sign ++ ds.take (ds.length - f.exp10) ++ '.' :: ds.drop (ds.length - f.exp10)

/-- Does a CSV field need quoting under `QUOTE_MINIMAL`? -/
def csvSpecial (c : Char) : Bool :=
  c = ',' || c = '"' || c = '\r' || c = '\n'

/-- Double every double-quote character (quoted-field escaping). -/
def escapeQuotes : List Char → List Char
  | [] => []
  | c :: rest =>
    if c = '"' then '"' :: '"' :: escapeQuotes rest else c :: escapeQuotes rest

/-- Serialize one CSV field with minimal quoting. -/
def writeField (cs : List Char) : List Char :=
  if cs.any csvSpecial then '"' :: (escapeQuotes cs ++ ['"']) else cs

/-- Comma-join serialized fields. -/
def joinFields : List (List Char) → List Char
  | [] => []
  | [f] => writeField f
  | f :: fs => writeField f ++ ',' :: joinFields fs

/-- Serialize one CSV row: comma-joined fields plus the CRLF terminator. -/
def writeRow (fields : List (List Char)) : List Char :=
  joinFields fields ++ ['\r', '\n']

/-- The fixed column schema. -/
def headerFields : List (List Char) :=
  ["implementation".data, "language".data, "size".data, "time_sec".data,
   "max_rss_kb".data, "nodes".data, "solutions".data]

/-- The field strings `csv.DictWriter.writerow` renders for one record. -/
def recordFields (r : ResultRecord) : List (List Char) :=
  [r.implementation.data, r.language.data, natToChars r.size,
   floatToChars r.time_sec, intToChars r.max_rss_kb, natToChars r.nodes,
   floatToChars r.solutions]

/-- The serialized header row. -/
def headerLine : List Char := writeRow headerFields

/-- The serialized row of one record. -/
def recordLine (r : ResultRecord) : List Char := writeRow (recordFields r)

/-- The `results/` directory under the repository root. -/
def resultsDirPath : String := "results"

/-- File-system effects `write_results` can issue, in order. -/
inductive FileEvent where
  | mkdirDir (dir : String)
  | openTrunc (path : String)
  | writeData (data : List Char)
  | closeFile
deriving DecidableEq, Repr

/-- `write_results` as its ordered effect trace: create `results/`
(`exist_ok=True`), open the output path for writing (truncating), write
the header, write each row in order, close. -/
def write_results (rows : List ResultRecord) (outputPath : String) :
    List FileEvent :=
  FileEvent.mkdirDir resultsDirPath :: FileEvent.openTrunc outputPath ::
    FileEvent.writeData headerLine ::
      (rows.map (fun r => FileEvent.writeData (recordLine r)) ++ [FileEvent.closeFile])

/-- Content of the file at the output path (`none` = no file) after one
effect. -/
def applyFileEvent (file : Option (List Char)) : FileEvent → Option (List Char)
  | FileEvent.mkdirDir _ => file
  | FileEvent.openTrunc _ => some []
  | FileEvent.writeData d => some (file.getD [] ++ d)
  | FileEvent.closeFile => file

/-- Content of the file at the output path after a sequence of effects. -/
def fileAfter (events : List FileEvent) (start : Option (List Char)) :
    Option (List Char) :=
  events.foldl applyFileEvent start

/-- The complete serialized table. -/
def tableContent (rows : List ResultRecord) : List Char :=
  headerLine ++ (rows.map recordLine).flatten

/-! ## Result table reading (`read_rows` in the plotting script)

The file is reopened in universal-newline text mode (`csv_path.open()`),
so `\r\n` and lone `\r` are translated to `\n` before `csv.DictReader`
sees the text; the reader then splits records and fields, undoing minimal
quoting, and `read_rows` converts the numeric columns with `int` and
`float`. -/

/-- Universal-newline translation performed by opening the file in text
mode: `\r\n` and `\r` both become `\n`. -/
def unlTranslate : List Char → List Char
  | [] => []
  | c :: rest =>
    if c = '\r' then
      match rest with
      | c2 :: rest2 =>
        if c2 = '\n' then '\n' :: unlTranslate rest2
        else '\n' :: unlTranslate (c2 :: rest2)
      | [] => ['\n']
    else c :: unlTranslate rest

/-- CSV record/field splitting (excel dialect): the `Bool` tracks whether
the scan is inside a quoted field, `field` holds the current field's
characters in reverse, `row` the current row's completed fields in
reverse.  A doubled quote inside a quoted field denotes one literal
quote; a blank line yields an empty record (which `DictReader` skips). -/
def csvParseAux : Bool → List Char → List Char → List (List Char) →
    List (List (List Char)) → List (List (List Char))
  | false, [], field, row, rows =>
    if field.isEmpty ∧ row.isEmpty then rows.reverse
    else ((field.reverse :: row).reverse :: rows).reverse
  | false, c :: rest, field, row, rows =>
    if c = ',' then csvParseAux false rest [] (field.reverse :: row) rows
    else if c = '\n' then
      if field.isEmpty ∧ row.isEmpty then csvParseAux false rest [] [] ([] :: rows)
      else csvParseAux false rest [] [] ((field.reverse :: row).reverse :: rows)
    else if c = '"' ∧ field.isEmpty then csvParseAux true rest [] row rows
    else csvParseAux false rest (c :: field) row rows
  | true, [], field, row, rows => ((field.reverse :: row).reverse :: rows).reverse
  | true, c :: rest, field, row, rows =>
    if c = '"' then
      match rest with
      | c2 :: rest2 =>
        if c2 = '"' then csvParseAux true rest2 ('"' :: field) row rows
        else csvParseAux false (c2 :: rest2) field row rows
      | [] =>
        if field.isEmpty ∧ row.isEmpty then rows.reverse
        else ((field.reverse :: row).reverse :: rows).reverse
    else csvParseAux true rest (c :: field) row rows

/-- `csv.reader` over already newline-translated text. -/
def csvRecords (cs : List Char) : List (List (List Char)) :=
  csvParseAux false cs [] [] []

/-- `DictReader` field access: the value in the column whose header cell
equals `key`. -/
def dictGet (header fields : List (List Char)) (key : List Char) :
    Option (List Char) :=
  match header.indexOf? key with
  | none => none
  | some i => fields.get? i

/-- Python `int()` on a CSV cell (an optional sign followed by digits). -/
def parseIntChars (cs : List Char) : Option Int :=
  match cs with
  | [] => none
  | c :: ds =>
    if c = '-' then
      if !ds.isEmpty && ds.all Char.isDigit then some (-(digitsToNat ds : Int))
      else none
    else if (c :: ds).all Char.isDigit then some ((digitsToNat (c :: ds) : Int))
    else none

/-- Python `float()` on an unsigned decimal cell. -/
def parseUnsignedFloat (ds : List Char) : Option PyFloat :=
  if ds.all (fun c => c.isDigit || c = '.') then floatOfGroup ds else none

/-- Python `float()` on a CSV cell (an optional sign followed by digits
with at most one dot; the exponent forms are not produced by the writer's
exact-decimal rendering and are omitted). -/
def parseFloatChars (cs : List Char) : Option PyFloat :=
  match cs with
  | [] => none
  | c :: ds =>
    if c = '-' then (parseUnsignedFloat ds).map (fun f => ⟨-f.mantissa, f.exp10⟩)
    else parseUnsignedFloat (c :: ds)

/-- The row dictionary of `read_rows` after its numeric conversions. -/
structure PlotRow where
  implementation : List Char
  language : List Char
  size : Int
  time_sec : PyFloat
  max_rss_kb : Int
  nodes : Int
  solutions : PyFloat
deriving DecidableEq, Repr

/-- Convert one CSV record to a `PlotRow` using the header, as the loop
in `read_rows` does. -/
def convertRow (header fields : List (List Char)) : Option PlotRow := do
  let impl ← dictGet header fields "implementation".data
  let lang ← dictGet header fields "language".data
  let size ← (dictGet header fields "size".data).bind parseIntChars
  let timeSec ← (dictGet header fields "time_sec".data).bind parseFloatChars
  let maxRss ← (dictGet header fields "max_rss_kb".data).bind parseIntChars
  let nodes ← (dictGet header fields "nodes".data).bind parseIntChars
  let solutions ← (dictGet header fields "solutions".data).bind parseFloatChars
  pure ⟨impl, lang, size, timeSec, maxRss, nodes, solutions⟩

/-- `read_rows`: open the table in universal-newline text mode, split
records, take the first record as the header, convert every following
non-blank record. -/
def read_rows (content : List Char) : Option (List PlotRow) :=
  match csvRecords (unlTranslate content) with
  | [] => some []
  | header :: dataRecords =>
    (dataRecords.filter (fun r => !r.isEmpty)).mapM (convertRow header)

/-- The `PlotRow` that reading back should reproduce from a written
record (numeric fields exactly; string fields up to the reader's
universal-newline translation). -/
def expectedPlotRow (r : ResultRecord) : PlotRow :=
  ⟨unlTranslate r.implementation.data, unlTranslate r.language.data,
   (r.size : Int), r.time_sec, r.max_rss_kb, (r.nodes : Int), r.solutions⟩

/-! ## The specification's qualifying-line grammar

For comparing the extractor against the specification's own wording, the
grammar of section 4.4 of the spec is formalised separately: a line
qualifies when its whitespace-separated tokens contain the marker token
followed, in order, by an `n=<integer>`, a `solutions=<decimal>` and a
`nodes=<integer>` token, with arbitrary other tokens interleaved. -/

/-- Whitespace-separated tokens of a line (Python `str.split()`). -/
def splitWsAux : List Char → List Char → List (List Char)
  | [], w => if w.isEmpty then [] else [w.reverse]
  | c :: rest, w =>
    if isReSpace c then
      if w.isEmpty then splitWsAux rest [] else w.reverse :: splitWsAux rest []
    else splitWsAux rest (c :: w)

/-- Whitespace-separated tokens of a line. -/
def splitWs (cs : List Char) : List (List Char) := splitWsAux cs []

/-- Does the token list contain tokens satisfying the given predicates,
in order, with arbitrary other tokens interleaved? -/
def tokensInOrder : List (List Char → Bool) → List (List Char) → Bool
  | [], _ => true
  | _ :: _, [] => false
  | p :: ps, t :: ts =>
    if p t then tokensInOrder ps ts else tokensInOrder (p :: ps) ts

/-- A `<key>=<integer>` token. -/
def isIntField (key : List Char) (t : List Char) : Bool :=
  key.isPrefixOf t && !(t.drop key.length).isEmpty &&
    (t.drop key.length).all Char.isDigit

/-- A `<key>=<decimal>` token (digits with at most one decimal point). -/
def isDecField (key : List Char) (t : List Char) : Bool :=
  key.isPrefixOf t && (floatOfGroup (t.drop key.length)).isSome &&
    (t.drop key.length).all (fun c => c.isDigit || c = '.')

/-- Modelled from the spec (section 4.4 grammar, for comparison with the
code): a line qualifies when it contains the marker token followed, in
order, by `n=<integer>`, `solutions=<decimal>` and `nodes=<integer>`
tokens, with arbitrary other whitespace-separated tokens interleaved. -/
def specQualifies (line : List Char) : Bool :=
  tokensInOrder
    [(fun t => t = "NQUEENS_METRICS".data),
     isIntField "n=".data,
     isDecField "solutions=".data,
     isIntField "nodes=".data]
    (splitWs line)

/-! ## The shape of a written row after universal-newline translation

Reading the table back first applies `unlTranslate` to the whole file;
these definitions describe the translated text of one serialized field
and row, used to relate writer and reader. -/

/-- A serialized field after universal-newline translation: the quoting
decision was made on the original text, the content is translated. -/
def trWriteField (f : List Char) : List Char :=
  if f.any csvSpecial then '"' :: (escapeQuotes (unlTranslate f) ++ ['"'])
  else f

/-- Comma-joined translated fields. -/
def trJoinFields : List (List Char) → List Char
  | [] => []
  | [f] => trWriteField f
  | f :: fs => trWriteField f ++ ',' :: trJoinFields fs

/-- A serialized row after universal-newline translation: the CRLF
terminator has become a bare LF. -/
def trRowChars (fs : List (List Char)) : List Char :=
  trJoinFields fs ++ ['\n']

/-! ## Sample inputs and derived definitions used by the theorems -/

/-- A sample record used at concrete inputs. -/
def sampleRecordA : ResultRecord := ⟨"BuDDy", "C", 4, ⟨20, 1⟩, 35000, 10, ⟨20, 1⟩⟩

/-- A second sample record used at concrete inputs. -/
def sampleRecordB : ResultRecord := ⟨"Sylvan", "C", 5, ⟨30, 1⟩, 42, 50, ⟨100, 1⟩⟩

/-- Is this effect a directory creation? -/
def FileEvent.isMkdir : FileEvent → Bool
  | FileEvent.mkdirDir _ => true
  | _ => false

/-- The counterexample input for C3: its single line satisfies the
specification's qualifying grammar (the `engine=x` token is an arbitrary
whitespace-separated token interleaved between the marker and the `n=`
field), yet the letter `n` inside that token defeats the `[^n]*` stretch
of the code's pattern. -/
def c3Stdout : String := "NQUEENS_METRICS engine=x n=4 solutions=2.0 nodes=10"


/-! ## Helper lemmas -/

/-- Writing a sequence of data chunks appends their concatenation. -/
theorem fileAfter_writeData (lines : List (List Char)) (c : List Char) :
    fileAfter (lines.map FileEvent.writeData) (some c) = some (c ++ lines.flatten) := by
  induction lines generalizing c with
  | nil => simp [fileAfter]
  | cons l ls ih =>
    simp only [List.map_cons, fileAfter, List.foldl_cons, applyFileEvent,
      Option.getD_some]
    have := ih (c ++ l)
    simp only [fileAfter] at this
    rw [this, List.flatten_cons, List.append_assoc]

/-- Folding with singleton appends is mapping. -/
theorem foldl_append_singleton {α β : Type} (g : α → β) (l : List α) (acc : List β) :
    l.foldl (fun a x => a ++ [g x]) acc = acc ++ l.map g := by
  induction l generalizing acc with
  | nil => simp
  | cons x xs ih => simp [ih, List.append_assoc]

/-- Folding with chunk appends is flattening. -/
theorem foldl_append_chunks {α β : Type} (f : α → List β) (l : List α) (acc : List β) :
    l.foldl (fun a x => a ++ f x) acc = acc ++ l.flatMap f := by
  induction l generalizing acc with
  | nil => simp
  | cons x xs ih => simp [ih, List.append_assoc]

/-! ## Claim C1 (Preparer idempotence) -/

/-- C1 counterexample: with every BuDDy artifact present — in particular
the terminal executable `BuDDy/examples/queen/queen` — `ensure_buddy`
still invokes an external build step (the unconditional final
`make -C examples/queen queen`), so the Preparer does not return
immediately and the second of two consecutive calls is not a no-op. -/
theorem C1_counterexample :
    ensure_buddy ⟨true, true, true⟩ = [BuildStep.buddyMakeQueen] ∧
    ensure_buddy ⟨true, true, true⟩ ≠ [] := by
  constructor
  · rfl
  · intro h
    simp [ensure_buddy] at h

/-- C1 (amended): when all artifacts a Preparer checks are present, the
Sylvan, CUDD, JDD and JSylvan Preparers invoke no external build step
(their second consecutive call is a no-op), but the BuDDy Preparer
always invokes exactly one build step — the final unconditional make of
the queen example — even when its terminal artifact already exists. -/
theorem C1_amended_prepare_skips :
    ensure_buddy ⟨true, true, true⟩ = [BuildStep.buddyMakeQueen] ∧
    ensure_sylvan true = [] ∧
    ensure_cudd ⟨true, true, true⟩ = [] ∧
    ensure_cudd ⟨false, true, true⟩ = [] ∧
    ensure_jdd true = [] ∧
    ensure_jsylvan true true = [] := by
  refine ⟨rfl, rfl, rfl, rfl, rfl, rfl⟩

/-! ## Claim C2 (all-or-nothing table writing) -/

/-- C2 counterexample: `write_results` opens the output path directly and
writes incrementally; if it fails after the header and the first of two
rows (its first four file effects), the file left at the output path holds
the header plus one row — a partially written table that is neither
absent nor the complete table. -/
theorem C2_counterexample :
    fileAfter ((write_results [sampleRecordA, sampleRecordB]
        "results/nqueens_metrics.csv").take 4) none =
      some (headerLine ++ recordLine sampleRecordA) ∧
    headerLine ++ recordLine sampleRecordA ≠
      tableContent [sampleRecordA, sampleRecordB] := by
  constructor
  · rfl
  · decide

/-- C2 (amended): `write_results` is not all-or-nothing — it truncates the
output file immediately and appends the header and then one row at a time,
with no temporary file or atomic rename; a failure after `k` of the row
writes leaves a partial file containing exactly the header and the first
`k` rows at the output path. -/
theorem C2_amended_partial_write (rows : List ResultRecord) (outputPath : String)
    (k : Nat) (hk : k ≤ rows.length) :
    fileAfter ((write_results rows outputPath).take (3 + k)) none =
      some (headerLine ++ ((rows.take k).map recordLine).flatten) := by
  have hw : write_results rows outputPath =
      [FileEvent.mkdirDir resultsDirPath, FileEvent.openTrunc outputPath,
       FileEvent.writeData headerLine] ++
        (rows.map (fun r => FileEvent.writeData (recordLine r)) ++
          [FileEvent.closeFile]) := rfl
  rw [hw, List.take_append_eq_append_take,
    List.take_of_length_le (by simp)]
  have hsub : 3 + k - ([FileEvent.mkdirDir resultsDirPath,
      FileEvent.openTrunc outputPath,
      FileEvent.writeData headerLine] : List FileEvent).length = k := by
    simp
  rw [hsub, List.take_append_of_le_length (by simpa using hk), ← List.map_take]
  simp only [fileAfter, List.foldl_append, List.foldl_cons, List.foldl_nil,
    applyFileEvent, Option.getD_some]
  have := fileAfter_writeData ((rows.take k).map recordLine) headerLine
  simp only [fileAfter, List.map_map] at this
  simpa using this

/-- C2 witness: the amended statement at two rows with a failure after the
first row write. -/
theorem C2_amended_partial_write_witness :
    1 ≤ [sampleRecordA, sampleRecordB].length ∧
    fileAfter ((write_results [sampleRecordA, sampleRecordB]
        "results/nqueens_metrics.csv").take (3 + 1)) none =
      some (headerLine ++
        (([sampleRecordA, sampleRecordB].take 1).map recordLine).flatten) :=
  ⟨by decide,
   C2_amended_partial_write [sampleRecordA, sampleRecordB]
     "results/nqueens_metrics.csv" 1 (by decide)⟩

/-! ## Claim C6 (size-mismatch guard) -/

/-- C6: when the target command exits zero but the extracted size differs
from the requested one, the trial fails with the distinct size-mismatch
error carrying both sizes; it never produces a Result Record and never
substitutes the requested size. -/
theorem C6_size_mismatch_fails (implName implLang : String) (size : Nat)
    (r : RawOutcome) (measured : Nat) (sol : PyFloat) (nd : Nat)
    (hrc : r.returncode = 0)
    (hp : parse_metrics r.stdout = Except.ok (measured, sol, nd))
    (hne : measured ≠ size) :
    run_implementation implName implLang size r =
      Except.error (RunError.sizeMismatch implName measured size) := by
  simp [run_implementation, hrc, hp, hne]

/-- C6 witness: a run reporting size 5 when size 4 was requested. -/
theorem C6_size_mismatch_fails_witness :
    run_implementation "BuDDy" "C" 4
      ⟨0, "NQUEENS_METRICS n=5 solutions=2.0 nodes=7", "", ⟨0, 0⟩, 0, []⟩ =
      Except.error (RunError.sizeMismatch "BuDDy" 5 4) :=
  C6_size_mismatch_fails "BuDDy" "C" 4 _ 5 ⟨20, 1⟩ 7 rfl rfl (by decide)

/-! ## Claim C7 (non-zero exit) -/

/-- C7: when the target command exits non-zero the trial fails with the
`CalledProcessError` built directly from the raw outcome — carrying the
captured stdout, stderr and exit code — and metrics extraction is never
attempted: the result is this error for every stdout, parseable or not. -/
theorem C7_nonzero_exit_fails (implName implLang : String) (size : Nat)
    (r : RawOutcome) (h : r.returncode ≠ 0) :
    run_implementation implName implLang size r =
      Except.error (RunError.calledProcess r.returncode r.cmd r.stdout r.stderr) := by
  simp [run_implementation, h]

/-- C7 witness: a failed run whose output would not parse. -/
theorem C7_nonzero_exit_fails_witness :
    run_implementation "CUDD" "C" 4 ⟨1, "garbage", "boom", ⟨0, 0⟩, 0, []⟩ =
      Except.error (RunError.calledProcess 1 [] "garbage" "boom") :=
  C7_nonzero_exit_fails "CUDD" "C" 4 _ (by decide)

/-! ## Claim C10 (results directory side effect) -/

/-- C10: every call to `write_results` first creates the harness's fixed
`results/` directory (with `exist_ok=True`) and only then opens the
caller-supplied output path — whatever that path is and whatever the
rows are — and this is its only directory creation. -/
theorem C10_mkdir_results_first (rows : List ResultRecord) (outputPath : String) :
    (write_results rows outputPath).take 2 =
      [FileEvent.mkdirDir resultsDirPath, FileEvent.openTrunc outputPath] ∧
    (write_results rows outputPath).countP FileEvent.isMkdir = 1 := by
  refine ⟨rfl, ?_⟩
  have hmap : (rows.map (fun r => FileEvent.writeData (recordLine r))).countP
      FileEvent.isMkdir = 0 := by
    rw [List.countP_eq_zero]
    intro a ha
    rw [List.mem_map] at ha
    obtain ⟨r, _, rfl⟩ := ha
    simp [FileEvent.isMkdir]
  simp [write_results, List.countP_cons, List.countP_append, hmap,
    FileEvent.isMkdir]

/-! ## Claim C9 (sweep order) -/

/-- C9: the Sweep Driver calls each registered implementation's Preparer
exactly once (in registration order, before any trial), then runs the
trials with the outer loop over the sizes in their given order and the
inner loop over the implementations in registration order, appending one
Result Record per trial in exactly that order. -/
theorem C9_sweep_order (sizes : List Nat) (record : ImplSpec → Nat → ResultRecord) :
    sweepTrace registeredImplementations sizes =
      registeredImplementations.map (fun i => SweepEvent.prepare i.name) ++
        sizes.flatMap
          (fun s => registeredImplementations.map (fun i => SweepEvent.trial i.name s)) ∧
    (sweepTrace registeredImplementations sizes).filter SweepEvent.isPrepare =
      [SweepEvent.prepare "BuDDy", SweepEvent.prepare "Sylvan",
       SweepEvent.prepare "CUDD", SweepEvent.prepare "JDD",
       SweepEvent.prepare "JSylvan"] ∧
    sweepRows registeredImplementations sizes record =
      sizes.flatMap (fun s => registeredImplementations.map (fun i => record i s)) := by
  have htrace : sweepTrace registeredImplementations sizes =
      registeredImplementations.map (fun i => SweepEvent.prepare i.name) ++
        sizes.flatMap
          (fun s => registeredImplementations.map (fun i => SweepEvent.trial i.name s)) := by
    unfold sweepTrace
    congr 1
    simp only [foldl_append_singleton]
    simpa using foldl_append_chunks
      (fun s => registeredImplementations.map (fun i => SweepEvent.trial i.name s)) sizes []
  refine ⟨htrace, ?_, ?_⟩
  · rw [htrace, List.filter_append]
    have h1 : (registeredImplementations.map
        (fun i => SweepEvent.prepare i.name)).filter SweepEvent.isPrepare =
        [SweepEvent.prepare "BuDDy", SweepEvent.prepare "Sylvan",
         SweepEvent.prepare "CUDD", SweepEvent.prepare "JDD",
         SweepEvent.prepare "JSylvan"] := rfl
    have h2 : (sizes.flatMap
        (fun s => registeredImplementations.map
          (fun i => SweepEvent.trial i.name s))).filter SweepEvent.isPrepare = [] := by
      rw [List.filter_eq_nil_iff]
      intro e he
      rw [List.mem_flatMap] at he
      obtain ⟨s, _, he2⟩ := he
      rw [List.mem_map] at he2
      obtain ⟨i, _, rfl⟩ := he2
      simp [SweepEvent.isPrepare]
    rw [h1, h2, List.append_nil]
  · unfold sweepRows
    simp only [foldl_append_singleton]
    simpa using foldl_append_chunks
      (fun s => registeredImplementations.map (fun i => record i s)) sizes []

/-! ## Claims C3, C4, C5 (metrics extraction) -/

/-- The keep-last fold of `parse_metrics` returns the last successful
search over the lines, or the accumulator when none succeeds. -/
theorem foldl_keepLast (f : List Char → Option (List (List Char)))
    (lines : List (List Char)) (acc : Option (List (List Char))) :
    lines.foldl
      (fun a l =>
        match f l with
        | some gs => some gs
        | none => a) acc =
    ((lines.filterMap f).getLast?).elim acc some := by
  induction lines generalizing acc with
  | nil => simp
  | cons l ls ih =>
    rw [List.foldl_cons, ih, List.filterMap_cons]
    cases hf : f l with
    | none => simp
    | some gs =>
      simp only
      cases hrest : ls.filterMap f with
      | nil => simp
      | cons x xs =>
        rw [List.getLast?_cons_cons]
        obtain ⟨y, hy⟩ := Option.isSome_iff_exists.mp
          (List.getLast?_isSome.mpr (List.cons_ne_nil x xs))
        rw [hy]
        rfl

/-- `lastMatch` is the last line-search success. -/
theorem lastMatch_eq (lines : List (List Char)) :
    lastMatch lines =
      (lines.filterMap (fun l => reSearch metricPattern l)).getLast? := by
  unfold lastMatch
  rw [foldl_keepLast (fun l => reSearch metricPattern l) lines none]
  cases (lines.filterMap (fun l => reSearch metricPattern l)).getLast? <;> rfl

/-- C5: when no line of the stripped output matches the extractor's
pattern, `parse_metrics` fails with the distinct no-metrics error (the
`RuntimeError` in the source) and never fabricates a triple. -/
theorem C5_zero_qualifying_fails (stdout : String)
    (h : ∀ l ∈ pySplitlines (pyStrip stdout.data),
      reSearch metricPattern l = none) :
    parse_metrics stdout = Except.error MetricsError.noMetrics := by
  have hfm : (pySplitlines (pyStrip stdout.data)).filterMap
      (fun l => reSearch metricPattern l) = [] := by
    rw [List.filterMap_eq_nil_iff]
    exact h
  unfold parse_metrics
  rw [lastMatch_eq, hfm]
  rfl

/-- C5 witness: output with no metrics line at all. -/
theorem C5_zero_qualifying_fails_witness :
    (∀ l ∈ pySplitlines (pyStrip "hello world".data),
      reSearch metricPattern l = none) ∧
    parse_metrics "hello world" = Except.error MetricsError.noMetrics :=
  ⟨by decide, C5_zero_qualifying_fails "hello world" (by decide)⟩

/-- C3 counterexample: a text with exactly one qualifying line under the
spec's grammar — marker, then `n=4`, `solutions=2.0`, `nodes=10` in
order, with the extra token `engine=x` interleaved — on which extraction
does not return the embedded triple but fails. -/
theorem C3_counterexample :
    ((pySplitlines (pyStrip c3Stdout.data)).filter specQualifies).length = 1 ∧
    parse_metrics c3Stdout = Except.error MetricsError.noMetrics := by
  exact ⟨rfl, rfl⟩

/-- C3 (amended): interleaved tokens are not arbitrary — text between the
marker and `n=` and between the solutions value and `nodes=` must not
contain the letter `n`, text between the `n` value and `solutions=` must
not contain the letter `s`, and the solutions field must be digits with
at most one dot; for every stdout whose lines contain exactly one match
of the extractor's pattern, extraction succeeds with exactly the matched
line's embedded triple. -/
theorem C3_amended_unique_match (stdout : String) (g1 g2 g3 : List Char)
    (sol : PyFloat)
    (h : (pySplitlines (pyStrip stdout.data)).filterMap
        (fun l => reSearch metricPattern l) = [[g1, g2, g3]])
    (hsol : floatOfGroup g2 = some sol) :
    parse_metrics stdout = Except.ok (digitsToNat g1, sol, digitsToNat g3) := by
  unfold parse_metrics
  rw [lastMatch_eq, h, List.getLast?_singleton]
  simp only [hsol]

/-- C3 witness: one well-formed metrics line. -/
theorem C3_amended_unique_match_witness :
    (pySplitlines (pyStrip "NQUEENS_METRICS n=4 solutions=2.0 nodes=10".data)).filterMap
        (fun l => reSearch metricPattern l) =
      [[['4'], ['2', '.', '0'], ['1', '0']]] ∧
    floatOfGroup ['2', '.', '0'] = some ⟨20, 1⟩ ∧
    parse_metrics "NQUEENS_METRICS n=4 solutions=2.0 nodes=10" =
      Except.ok (4, ⟨20, 1⟩, 10) :=
  ⟨by decide, by decide,
   C3_amended_unique_match _ ['4'] ['2', '.', '0'] ['1', '0'] ⟨20, 1⟩
     (by decide) (by decide)⟩

/-- C4: when the lines of the output contain two or more matches of the
extractor's pattern (the grammar that qualifies a line, cf. the C3
correction), extraction returns exactly the triple embedded in the last
matching line of the text. -/
theorem C4_last_qualifying_wins (stdout : String)
    (prev : List (List (List Char))) (g1 g2 g3 : List Char) (sol : PyFloat)
    (_hprev : prev ≠ [])
    (h : (pySplitlines (pyStrip stdout.data)).filterMap
        (fun l => reSearch metricPattern l) = prev ++ [[g1, g2, g3]])
    (hsol : floatOfGroup g2 = some sol) :
    parse_metrics stdout = Except.ok (digitsToNat g1, sol, digitsToNat g3) := by
  unfold parse_metrics
  rw [lastMatch_eq, h, List.getLast?_concat]
  simp only [hsol]

/-- C4 witness: a progress line followed by a final summary line; the
summary wins. -/
theorem C4_last_qualifying_wins_witness :
    ([[['4'], ['2', '.', '0'], ['1', '0']]] : List (List (List Char))) ≠ [] ∧
    (pySplitlines (pyStrip
        "NQUEENS_METRICS n=4 solutions=2.0 nodes=10\nNQUEENS_METRICS n=5 solutions=10.0 nodes=50".data)).filterMap
        (fun l => reSearch metricPattern l) =
      [[['4'], ['2', '.', '0'], ['1', '0']]] ++ [[['5'], ['1', '0', '.', '0'], ['5', '0']]] ∧
    parse_metrics
        "NQUEENS_METRICS n=4 solutions=2.0 nodes=10\nNQUEENS_METRICS n=5 solutions=10.0 nodes=50" =
      Except.ok (5, ⟨100, 1⟩, 50) :=
  ⟨by decide, by decide,
   C4_last_qualifying_wins _ [[['4'], ['2', '.', '0'], ['1', '0']]]
     ['5'] ['1', '0', '.', '0'] ['5', '0'] ⟨100, 1⟩
     (by decide) (by decide) (by decide)⟩

/-! ## Claim C8: decimal rendering round-trip lemmas -/

/-- The character of a decimal digit is a digit character with the
expected code point. -/
theorem digitChar_spec (m : Nat) (hm : m < 10) :
    (Char.ofNat (m + 48)).isDigit = true ∧ (Char.ofNat (m + 48)).toNat = m + 48 := by
  interval_cases m <;> exact ⟨rfl, rfl⟩

/-- The accumulator of `natDigitsAux` is a suffix of its result. -/
theorem natDigitsAux_append (fuel : Nat) :
    ∀ (n : Nat) (acc : List Char),
      natDigitsAux fuel n acc = natDigitsAux fuel n [] ++ acc := by
  induction fuel with
  | zero => intro n acc; rfl
  | succ fuel ih =>
    intro n acc
    by_cases hn : n = 0
    · simp [natDigitsAux, hn]
    · simp only [natDigitsAux, hn, if_false]
      rw [ih (n / 10) (Char.ofNat (n % 10 + 48) :: acc),
        ih (n / 10) [Char.ofNat (n % 10 + 48)], List.append_assoc,
        List.singleton_append]

/-- Appending a digit multiplies the value by ten and adds the digit. -/
theorem digitsToNat_append_digit (xs : List Char) (c : Char) :
    digitsToNat (xs ++ [c]) = digitsToNat xs * 10 + (c.toNat - 48) := by
  simp [digitsToNat, List.foldl_append]

/-- `natDigitsAux` renders the decimal digits of its argument. -/
theorem digitsToNat_natDigitsAux (fuel : Nat) :
    ∀ n : Nat, n ≤ fuel → digitsToNat (natDigitsAux fuel n []) = n := by
  induction fuel with
  | zero =>
    intro n hn
    interval_cases n
    rfl
  | succ fuel ih =>
    intro n hn
    by_cases hn0 : n = 0
    · subst hn0; rfl
    · have hd : (Char.ofNat (n % 10 + 48)).toNat = n % 10 + 48 :=
        (digitChar_spec (n % 10) (Nat.mod_lt _ (by norm_num))).2
      have hdiv : n / 10 ≤ fuel := by
        have := Nat.div_lt_self (Nat.pos_of_ne_zero hn0) (by norm_num : (1 : Nat) < 10)
        omega
      simp only [natDigitsAux, hn0, if_false]
      rw [natDigitsAux_append, digitsToNat_append_digit, ih (n / 10) hdiv, hd]
      omega

/-- Every character `natDigitsAux` produces is a digit. -/
theorem natDigitsAux_digits (fuel : Nat) :
    ∀ (n : Nat) (acc : List Char), (∀ c ∈ acc, c.isDigit = true) →
      ∀ c ∈ natDigitsAux fuel n acc, c.isDigit = true := by
  induction fuel with
  | zero => intro n acc hacc; exact hacc
  | succ fuel ih =>
    intro n acc hacc
    by_cases hn : n = 0
    · simpa [natDigitsAux, hn] using hacc
    · simp only [natDigitsAux, hn, if_false]
      refine ih (n / 10) _ ?_
      intro c hc
      rcases List.mem_cons.mp hc with h | h
      · subst h; exact (digitChar_spec (n % 10) (Nat.mod_lt _ (by norm_num))).1
      · exact hacc c h

/-- `natToChars` is nonempty. -/
theorem natToChars_ne_nil (n : Nat) : natToChars n ≠ [] := by
  unfold natToChars
  by_cases hn : n = 0
  · simp [hn]
  · simp only [hn, if_false]
    cases n with
    | zero => exact absurd rfl hn
    | succ m =>
      simp only [natDigitsAux, Nat.succ_ne_zero, if_false]
      rw [natDigitsAux_append]
      simp

/-- Every character of `natToChars` is a digit. -/
theorem natToChars_digits (n : Nat) : ∀ c ∈ natToChars n, c.isDigit = true := by
  unfold natToChars
  by_cases hn : n = 0
  · simp [hn]
  · simp only [hn, if_false]
    exact natDigitsAux_digits n n [] (by simp)

/-- `natToChars` renders the decimal value of its argument. -/
theorem digitsToNat_natToChars (n : Nat) : digitsToNat (natToChars n) = n := by
  unfold natToChars
  by_cases hn : n = 0
  · simp [hn]; rfl
  · simp only [hn, if_false]
    exact digitsToNat_natDigitsAux n n (le_refl n)

/-- A digit character is none of the special characters the CSV writer
or the numeric parsers treat specially. -/
theorem isDigit_facts (c : Char) (h : c.isDigit = true) :
    c ≠ '-' ∧ c ≠ '.' ∧ csvSpecial c = false ∧ c ≠ '\r' := by
  refine ⟨?_, ?_, ?_, ?_⟩
  · rintro rfl; simp at h
  · rintro rfl; simp at h
  · by_contra hcs
    rw [Bool.not_eq_false] at hcs
    simp only [csvSpecial, Bool.or_eq_true, decide_eq_true_eq] at hcs
    rcases hcs with ((rfl | rfl) | rfl) | rfl <;> simp at h
  · rintro rfl; simp at h

/-- Python `int` round-trips Python `str` on integers. -/
theorem parseIntChars_intToChars (z : Int) : parseIntChars (intToChars z) = some z := by
  by_cases hz : z < 0
  · rw [intToChars, if_pos hz]
    have hne : (natToChars z.natAbs).isEmpty = false := by
      rw [Bool.eq_false_iff]
      intro h
      exact natToChars_ne_nil z.natAbs (List.isEmpty_iff.mp h)
    have hall : (natToChars z.natAbs).all Char.isDigit = true :=
      List.all_eq_true.mpr (natToChars_digits z.natAbs)
    simp only [parseIntChars, if_pos rfl, hne, hall, Bool.not_false, Bool.and_self,
      if_true, digitsToNat_natToChars]
    congr 1
    omega
  · rw [intToChars, if_neg hz]
    obtain ⟨c, ds, hcds⟩ :=
      List.exists_cons_of_ne_nil (natToChars_ne_nil z.natAbs)
    have hdig : ∀ x ∈ c :: ds, x.isDigit = true := by
      rw [← hcds]; exact natToChars_digits z.natAbs
    have hc : c ≠ '-' :=
      (isDigit_facts c (hdig c (List.mem_cons_self c ds))).1
    have hval : digitsToNat (c :: ds) = z.natAbs := by
      rw [← hcds, digitsToNat_natToChars]
    rw [hcds]
    simp only [parseIntChars, if_neg hc, List.all_eq_true.mpr hdig, if_true, hval]
    congr 1
    omega

/-- A leading zero does not change the decimal value. -/
theorem digitsToNat_cons_zero (ys : List Char) :
    digitsToNat ('0' :: ys) = digitsToNat ys := rfl

/-- Leading zeros do not change the decimal value. -/
theorem digitsToNat_replicate_zero (k : Nat) (ds : List Char) :
    digitsToNat (List.replicate k '0' ++ ds) = digitsToNat ds := by
  induction k with
  | zero => rfl
  | succ k ih =>
    rw [List.replicate_succ, List.cons_append, digitsToNat_cons_zero]
    exact ih

/-- Zero padding does not change the decimal value. -/
theorem digitsToNat_padZeros (e : Nat) (ds : List Char) :
    digitsToNat (padZeros e ds) = digitsToNat ds :=
  digitsToNat_replicate_zero _ ds

/-- Padding a digit list with zeros yields digits. -/
theorem padZeros_all_digits (e : Nat) (ds : List Char)
    (h : ∀ c ∈ ds, c.isDigit = true) :
    ∀ c ∈ padZeros e ds, c.isDigit = true := by
  intro c hc
  rcases List.mem_append.mp hc with h1 | h1
  · rw [List.eq_of_mem_replicate h1]; rfl
  · exact h c h1

/-- Padding guarantees at least `e + 1` characters. -/
theorem padZeros_length_ge (e : Nat) (ds : List Char) :
    e + 1 ≤ (padZeros e ds).length := by
  simp [padZeros]
  omega

/-- Splitting a list at the first character failing the predicate. -/
theorem takeWhile_append_split {p : Char → Bool} (xs : List Char) (y : Char)
    (ys : List Char) (hxs : ∀ x ∈ xs, p x = true) (hy : p y = false) :
    (xs ++ y :: ys).takeWhile p = xs ∧ (xs ++ y :: ys).dropWhile p = y :: ys := by
  induction xs with
  | nil => simp [List.takeWhile_cons, List.dropWhile_cons, hy]
  | cons x xs ih =>
    have hx : p x = true := hxs x (List.mem_cons_self x xs)
    have := ih (fun a ha => hxs a (List.mem_cons_of_mem x ha))
    simp [List.takeWhile_cons, List.dropWhile_cons, hx, this.1, this.2]

/-- A list all of whose characters satisfy the predicate is its own
longest prefix. -/
theorem takeWhile_all {p : Char → Bool} (xs : List Char)
    (hxs : ∀ x ∈ xs, p x = true) :
    xs.takeWhile p = xs ∧ xs.dropWhile p = [] := by
  induction xs with
  | nil => simp
  | cons x xs ih =>
    have hx : p x = true := hxs x (List.mem_cons_self x xs)
    have := ih (fun a ha => hxs a (List.mem_cons_of_mem x ha))
    simp [List.takeWhile_cons, List.dropWhile_cons, hx, this.1, this.2]

/-- Python `float` on a pure digit string is the integer value. -/
theorem parseUnsignedFloat_digits (ds : List Char) (hne : ds ≠ [])
    (hdig : ∀ c ∈ ds, c.isDigit = true) :
    parseUnsignedFloat ds = some ⟨(digitsToNat ds : Int), 0⟩ := by
  have hall : ds.all (fun c => c.isDigit || c = '.') = true :=
    List.all_eq_true.mpr (fun c hc => by simp [hdig c hc])
  have hnd : ∀ c ∈ ds, (fun c => c != '.') c = true := by
    intro c hc
    simpa using (isDigit_facts c (hdig c hc)).2.1
  rw [parseUnsignedFloat, if_pos hall, floatOfGroup]
  rw [(takeWhile_all ds hnd).2]
  dsimp only
  simp [(takeWhile_all ds hnd).1, List.isEmpty_iff, hne]

/-- Python `float` round-trips `str` of an integer. -/
theorem parseFloatChars_intToChars (m : Int) :
    parseFloatChars (intToChars m) = some ⟨m, 0⟩ := by
  by_cases hm : m < 0
  · rw [intToChars, if_pos hm]
    have h := parseUnsignedFloat_digits (natToChars m.natAbs)
      (natToChars_ne_nil _) (natToChars_digits _)
    simp only [parseFloatChars, if_pos rfl, h, Option.map_some',
      digitsToNat_natToChars]
    rw [show -((m.natAbs : Int)) = m from by omega]
    simp
  · rw [intToChars, if_neg hm]
    obtain ⟨c, ds, hcds⟩ :=
      List.exists_cons_of_ne_nil (natToChars_ne_nil m.natAbs)
    have hdig : ∀ x ∈ c :: ds, x.isDigit = true := by
      rw [← hcds]; exact natToChars_digits m.natAbs
    have hc : c ≠ '-' :=
      (isDigit_facts c (hdig c (List.mem_cons_self c ds))).1
    have h := parseUnsignedFloat_digits (c :: ds) (by simp) hdig
    have hv : digitsToNat (c :: ds) = m.natAbs := by
      rw [← hcds, digitsToNat_natToChars]
    rw [hcds]
    simp only [parseFloatChars, if_neg hc, h, hv]
    rw [show ((m.natAbs : Int)) = m from by omega]

/-- Python `float` round-trips `str` of a float: reading back the exact
decimal rendering recovers the same value (even the same mantissa and
exponent representation). -/
theorem parseFloatChars_floatToChars (f : PyFloat) :
    parseFloatChars (floatToChars f) = some f := by
  obtain ⟨m, e⟩ := f
  by_cases he : e = 0
  · subst he
    rw [floatToChars]
    simpa using parseFloatChars_intToChars m
  · rw [floatToChars]
    simp only [if_neg he]
    set L := natToChars m.natAbs with hL
    set ds := padZeros e L with hds
    have hlen : e + 1 ≤ ds.length := padZeros_length_ge e L
    have hdig : ∀ c ∈ ds, c.isDigit = true :=
      padZeros_all_digits e L (natToChars_digits _)
    set cut := ds.length - e with hcut
    have htake_digits : ∀ c ∈ ds.take cut, c.isDigit = true :=
      fun c hc => hdig c (List.mem_of_mem_take hc)
    have hdrop_digits : ∀ c ∈ ds.drop cut, c.isDigit = true :=
      fun c hc => hdig c (List.mem_of_mem_drop hc)
    have htklen : (ds.take cut).length = cut := by
      rw [List.length_take]
      omega
    have htkne : ds.take cut ≠ [] := by
      intro hnil
      rw [hnil] at htklen
      simp at htklen
      omega
    have hsplit := takeWhile_append_split (p := fun c => c != '.')
      (ds.take cut) '.' (ds.drop cut)
      (fun x hx => by simpa using (isDigit_facts x (htake_digits x hx)).2.1)
      (by simp)
    have hu_all : (ds.take cut ++ '.' :: ds.drop cut).all
        (fun c => c.isDigit || c = '.') = true := by
      rw [List.all_eq_true]
      intro c hc
      rcases List.mem_append.mp hc with h1 | h1
      · simp [htake_digits c h1]
      · rcases List.mem_cons.mp h1 with rfl | h2
        · simp
        · simp [hdrop_digits c h2]
    have hfrac_nodot : ((ds.drop cut).any fun c => decide (c = '.')) = false := by
      rw [Bool.eq_false_iff]
      intro hany
      obtain ⟨c, hc, hdot⟩ := List.any_eq_true.mp hany
      have := (isDigit_facts c (hdrop_digits c hc)).2.1
      simp at hdot
      exact this hdot
    have hint_ne : (ds.take cut).isEmpty = false := by
      rw [Bool.eq_false_iff]
      intro hemp
      exact htkne (List.isEmpty_iff.mp hemp)
    have hdroplen : (ds.drop cut).length = e := by
      rw [List.length_drop]
      omega
    have hpuf : parseUnsignedFloat (ds.take cut ++ '.' :: ds.drop cut) =
        some ⟨(digitsToNat ds : Int), e⟩ := by
      rw [parseUnsignedFloat, if_pos hu_all, floatOfGroup]
      rw [hsplit.2]
      dsimp only
      rw [hfrac_nodot]
      simp only [Bool.false_eq_true, if_false]
      rw [hsplit.1, hint_ne]
      simp only [Bool.false_and, Bool.false_eq_true, if_false,
        List.take_append_drop, hdroplen]
    have hval : digitsToNat ds = m.natAbs := by
      rw [hds, digitsToNat_padZeros, hL, digitsToNat_natToChars]
    by_cases hm : m < 0
    · simp only [if_pos hm]
      rw [List.append_assoc, List.singleton_append]
      simp only [parseFloatChars, if_pos rfl, hpuf, Option.map_some', hval]
      rw [show -((m.natAbs : Int)) = m from by omega]
      simp
    · simp only [if_neg hm, List.nil_append]
      obtain ⟨c, rest, hcrest⟩ := List.exists_cons_of_ne_nil htkne
      have hcdig : c.isDigit = true :=
        htake_digits c (by rw [hcrest]; exact List.mem_cons_self c rest)
      have hcdash : c ≠ '-' := (isDigit_facts c hcdig).1
      rw [hcrest] at hpuf ⊢
      rw [List.cons_append]
      rw [List.cons_append] at hpuf
      simp only [parseFloatChars, if_neg hcdash, hpuf, hval]
      rw [show ((m.natAbs : Int)) = m from by omega]

/-- Translation passes a non-CR character through. -/
theorem unlTranslate_cons_ne (c : Char) (cs : List Char) (hc : c ≠ '\r') :
    unlTranslate (c :: cs) = c :: unlTranslate cs := by
  cases cs <;> simp [unlTranslate, hc]

/-- A CR not followed by LF becomes LF. -/
theorem unlTranslate_cr_head (t : List Char) (h : t.head? ≠ some '\n') :
    unlTranslate ('\r' :: t) = '\n' :: unlTranslate t := by
  cases t with
  | nil => rfl
  | cons c2 rest =>
    have hc2 : c2 ≠ '\n' := by
      intro h2
      exact h (by rw [h2]; rfl)
    simp [unlTranslate, hc2]

/-- A CRLF pair becomes a single LF. -/
theorem unlTranslate_crlf (cs : List Char) :
    unlTranslate ('\r' :: '\n' :: cs) = '\n' :: unlTranslate cs := by
  simp [unlTranslate]

/-- Translation distributes over an append whose left part is CR-free. -/
theorem unlTranslate_append_no_cr (xs ys : List Char) (h : ∀ c ∈ xs, c ≠ '\r') :
    unlTranslate (xs ++ ys) = xs ++ unlTranslate ys := by
  induction xs with
  | nil => rfl
  | cons c xs ih =>
    rw [List.cons_append, unlTranslate_cons_ne c _ (h c (List.mem_cons_self c xs)),
      ih (fun a ha => h a (List.mem_cons_of_mem c ha)), List.cons_append]

/-- CR-free text is unchanged by translation. -/
theorem unlTranslate_eq_self_no_cr (xs : List Char) (h : ∀ c ∈ xs, c ≠ '\r') :
    unlTranslate xs = xs := by
  have h2 := unlTranslate_append_no_cr xs [] h
  rw [show unlTranslate ([] : List Char) = [] from rfl, List.append_nil] at h2
  exact h2

/-- Escaping doubles a leading quote. -/
theorem escapeQuotes_cons_quote (g : List Char) :
    escapeQuotes ('"' :: g) = '"' :: '"' :: escapeQuotes g := by
  simp [escapeQuotes]

/-- Escaping passes a non-quote character through. -/
theorem escapeQuotes_cons_ne (c : Char) (g : List Char) (hc : c ≠ '"') :
    escapeQuotes (c :: g) = c :: escapeQuotes g := by
  simp [escapeQuotes, hc]

/-- Newline translation commutes with quote escaping (the following text
must not start with LF, lest a trailing CR pair with it); stated with an
explicit length bound for the induction. -/
theorem unlTranslate_escape_aux :
    ∀ (n : Nat) (g ys : List Char), g.length ≤ n → ys.head? ≠ some '\n' →
      unlTranslate (escapeQuotes g ++ ys) =
        escapeQuotes (unlTranslate g) ++ unlTranslate ys := by
  intro n
  induction n with
  | zero =>
    intro g ys hg _
    have hgn : g = [] := List.length_eq_zero.mp (Nat.le_zero.mp hg)
    subst hgn
    rfl
  | succ n ih =>
    intro g ys hg hy
    cases g with
    | nil => rfl
    | cons c g' =>
      by_cases hq : c = '"'
      · subst hq
        have hg' : g'.length ≤ n := by simp at hg; omega
        rw [escapeQuotes_cons_quote, List.cons_append, List.cons_append,
          unlTranslate_cons_ne _ _ (by decide), unlTranslate_cons_ne _ _ (by decide),
          ih g' ys hg' hy, unlTranslate_cons_ne _ _ (by decide),
          escapeQuotes_cons_quote, List.cons_append, List.cons_append]
      · by_cases hr : c = '\r'
        · subst hr
          cases g' with
          | nil =>
            rw [escapeQuotes_cons_ne _ _ (by decide)]
            show unlTranslate ('\r' :: ([] ++ ys)) = _
            rw [List.nil_append, unlTranslate_cr_head ys hy]
            rfl
          | cons c2 g'' =>
            by_cases h2 : c2 = '\n'
            · subst h2
              have hg'' : g''.length ≤ n := by simp at hg; omega
              rw [escapeQuotes_cons_ne _ _ (by decide),
                escapeQuotes_cons_ne _ _ (by decide), List.cons_append,
                List.cons_append, unlTranslate_crlf, ih g'' ys hg'' hy,
                unlTranslate_crlf, escapeQuotes_cons_ne _ _ (by decide),
                List.cons_append]
            · have hg2 : (c2 :: g'').length ≤ n := by simp at hg ⊢; omega
              rw [escapeQuotes_cons_ne '\r' _ (by decide), List.cons_append]
              have hhead : (escapeQuotes (c2 :: g'') ++ ys).head? ≠ some '\n' := by
                by_cases h2q : c2 = '"'
                · subst h2q
                  rw [escapeQuotes_cons_quote]
                  simp
                · rw [escapeQuotes_cons_ne c2 g'' h2q]
                  simp [h2]
              rw [unlTranslate_cr_head _ hhead, ih (c2 :: g'') ys hg2 hy,
                unlTranslate_cr_head (c2 :: g'') (by simp [h2]),
                escapeQuotes_cons_ne '\n' _ (by decide), List.cons_append]
        · have hg' : g'.length ≤ n := by simp at hg; omega
          rw [escapeQuotes_cons_ne c g' hq, List.cons_append,
            unlTranslate_cons_ne c _ hr, ih g' ys hg' hy,
            unlTranslate_cons_ne c g' hr, escapeQuotes_cons_ne c _ hq,
            List.cons_append]

/-- Newline translation commutes with quote escaping. -/
theorem unlTranslate_escape (g ys : List Char) (hy : ys.head? ≠ some '\n') :
    unlTranslate (escapeQuotes g ++ ys) =
      escapeQuotes (unlTranslate g) ++ unlTranslate ys :=
  unlTranslate_escape_aux g.length g ys (le_refl _) hy

/-- Translating a serialized field leaves the quoting structure intact
and translates its content. -/
theorem unlTranslate_writeField (f ys : List Char) :
    unlTranslate (writeField f ++ ys) = trWriteField f ++ unlTranslate ys := by
  rw [writeField, trWriteField]
  by_cases hq : f.any csvSpecial
  · rw [if_pos hq, if_pos hq, List.cons_append, List.append_assoc,
      List.singleton_append, unlTranslate_cons_ne '"' _ (by decide),
      unlTranslate_escape f ('"' :: ys) (by simp),
      unlTranslate_cons_ne '"' ys (by decide), List.cons_append,
      List.append_assoc, List.singleton_append]
  · rw [if_neg hq, if_neg hq]
    have hnocr : ∀ c ∈ f, c ≠ '\r' := by
      intro c hc hrc
      subst hrc
      exact hq (List.any_eq_true.mpr ⟨'\r', hc, by decide⟩)
    exact unlTranslate_append_no_cr f ys hnocr

/-- Translating a serialized row: fields keep their structure, the CRLF
terminator becomes LF. -/
theorem unlTranslate_writeRow (fs : List (List Char)) (rest : List Char) :
    unlTranslate (writeRow fs ++ rest) = trRowChars fs ++ unlTranslate rest := by
  rw [writeRow, trRowChars]
  induction fs with
  | nil =>
    show unlTranslate (([] ++ ['\r', '\n']) ++ rest) =
      ([] ++ ['\n']) ++ unlTranslate rest
    rw [List.nil_append, List.nil_append]
    show unlTranslate ('\r' :: '\n' :: rest) = _
    rw [unlTranslate_crlf]
    rfl
  | cons f fs ih =>
    cases fs with
    | nil =>
      show unlTranslate ((writeField f ++ ['\r', '\n']) ++ rest) =
        (trWriteField f ++ ['\n']) ++ unlTranslate rest
      rw [List.append_assoc, unlTranslate_writeField f _,
        show (['\r', '\n'] : List Char) ++ rest = '\r' :: '\n' :: rest from rfl,
        unlTranslate_crlf, List.append_assoc]
      rfl
    | cons f2 fs' =>
      show unlTranslate (((writeField f ++ ',' :: joinFields (f2 :: fs')) ++
          ['\r', '\n']) ++ rest) =
        ((trWriteField f ++ ',' :: trJoinFields (f2 :: fs')) ++ ['\n']) ++
          unlTranslate rest
      rw [List.append_assoc, List.append_assoc, List.cons_append,
        unlTranslate_writeField f _, unlTranslate_cons_ne ',' _ (by decide),
        List.append_assoc, List.append_assoc, List.cons_append]
      congr 2
      show unlTranslate (joinFields (f2 :: fs') ++ (['\r', '\n'] ++ rest)) =
        trJoinFields (f2 :: fs') ++ (['\n'] ++ unlTranslate rest)
      rw [← List.append_assoc, ← List.append_assoc]
      exact ih

/-- A non-special character is none of the four special ones. -/
theorem csvSpecial_false_facts (c : Char) (h : csvSpecial c = false) :
    c ≠ ',' ∧ c ≠ '"' ∧ c ≠ '\r' ∧ c ≠ '\n' := by
  refine ⟨?_, ?_, ?_, ?_⟩ <;> rintro rfl <;> simp [csvSpecial] at h

/-- Scanner step: a comma ends the current field. -/
theorem csvPA_comma (rest : List Char) (field : List Char)
    (row : List (List Char)) (rows : List (List (List Char))) :
    csvParseAux false (',' :: rest) field row rows =
      csvParseAux false rest [] (field.reverse :: row) rows := by
  simp [csvParseAux]

/-- Scanner step: an LF ends a non-blank record. -/
theorem csvPA_newline (rest : List Char) (field : List Char)
    (row : List (List Char)) (rows : List (List (List Char)))
    (h : field ≠ [] ∨ row ≠ []) :
    csvParseAux false ('\n' :: rest) field row rows =
      csvParseAux false rest [] [] ((field.reverse :: row).reverse :: rows) := by
  rcases h with h | h <;> simp [csvParseAux, List.isEmpty_iff, h]

/-- Scanner step: a quote at the start of a field opens quoted mode. -/
theorem csvPA_quote_open (rest : List Char) (row : List (List Char))
    (rows : List (List (List Char))) :
    csvParseAux false ('"' :: rest) [] row rows =
      csvParseAux true rest [] row rows := by
  simp [csvParseAux]

/-- Scanner step: any other character is accumulated. -/
theorem csvPA_other (c : Char) (rest : List Char) (field : List Char)
    (row : List (List Char)) (rows : List (List (List Char)))
    (hc1 : c ≠ ',') (hc2 : c ≠ '\n') (hc3 : ¬(c = '"' ∧ field = [])) :
    csvParseAux false (c :: rest) field row rows =
      csvParseAux false rest (c :: field) row rows := by
  by_cases hq : c = '"'
  · subst hq
    have hf : field ≠ [] := fun hf => hc3 ⟨rfl, hf⟩
    simp [csvParseAux, List.isEmpty_iff, hf]
  · simp [csvParseAux, hc1, hc2, hq]

/-- Scanner step: a doubled quote inside a quoted field is one literal
quote. -/
theorem csvPA_true_pair (rest : List Char) (field : List Char)
    (row : List (List Char)) (rows : List (List (List Char))) :
    csvParseAux true ('"' :: '"' :: rest) field row rows =
      csvParseAux true rest ('"' :: field) row rows := by
  simp [csvParseAux]

/-- Scanner step: a quote not followed by another quote closes the
quoted field. -/
theorem csvPA_true_close (rest : List Char) (field : List Char)
    (row : List (List Char)) (rows : List (List (List Char)))
    (h : rest.head? ≠ some '"') :
    csvParseAux true ('"' :: rest) field row rows =
      csvParseAux false rest field row rows := by
  cases rest with
  | nil => simp [csvParseAux]
  | cons c2 rest2 =>
    have hc2 : c2 ≠ '"' := fun h2 => h (by rw [h2]; rfl)
    simp [csvParseAux, hc2]

/-- Scanner step: inside quotes every other character is accumulated. -/
theorem csvPA_true_other (c : Char) (rest : List Char) (field : List Char)
    (row : List (List Char)) (rows : List (List (List Char))) (hc : c ≠ '"') :
    csvParseAux true (c :: rest) field row rows =
      csvParseAux true rest (c :: field) row rows := by
  cases rest <;> simp [csvParseAux, hc]

/-- The scanner consumes a special-character-free stretch verbatim. -/
theorem csvPA_consume_plain (g : List Char)
    (hg : ∀ c ∈ g, csvSpecial c = false) :
    ∀ (rest : List Char) (field : List Char) (row : List (List Char))
      (rows : List (List (List Char))),
      csvParseAux false (g ++ rest) field row rows =
        csvParseAux false rest (g.reverse ++ field) row rows := by
  induction g with
  | nil => intro rest field row rows; rfl
  | cons c g' ih =>
    intro rest field row rows
    obtain ⟨hc1, hc2, _, hc4⟩ :=
      csvSpecial_false_facts c (hg c (List.mem_cons_self c g'))
    rw [List.cons_append,
      csvPA_other c _ _ _ _ hc1 hc4 (fun hand => hc2 hand.1),
      ih (fun a ha => hg a (List.mem_cons_of_mem c ha)) rest (c :: field),
      List.reverse_cons, List.append_assoc, List.singleton_append]

/-- The scanner undoes quote escaping: consuming escaped content up to
the closing quote recovers the original content. -/
theorem csvPA_consume_quoted (g : List Char) :
    ∀ (rest : List Char) (field : List Char) (row : List (List Char))
      (rows : List (List (List Char))), rest.head? ≠ some '"' →
      csvParseAux true (escapeQuotes g ++ '"' :: rest) field row rows =
        csvParseAux false rest (g.reverse ++ field) row rows := by
  induction g with
  | nil =>
    intro rest field row rows h
    show csvParseAux true ('"' :: rest) field row rows = _
    rw [csvPA_true_close rest field row rows h]
    rfl
  | cons c g' ih =>
    intro rest field row rows h
    by_cases hc : c = '"'
    · subst hc
      rw [escapeQuotes_cons_quote, List.cons_append, List.cons_append,
        csvPA_true_pair, ih rest ('"' :: field) row rows h,
        List.reverse_cons, List.append_assoc, List.singleton_append]
    · rw [escapeQuotes_cons_ne c g' hc, List.cons_append,
        csvPA_true_other c _ _ _ _ hc, ih rest (c :: field) row rows h,
        List.reverse_cons, List.append_assoc, List.singleton_append]

/-- The scanner consumes one translated serialized field, leaving the
translated field text accumulated, whether quoted or not. -/
theorem csvPA_field (f : List Char) (d : Char) (rest : List Char)
    (row : List (List Char)) (rows : List (List (List Char)))
    (hd : d = ',' ∨ d = '\n') :
    csvParseAux false (trWriteField f ++ d :: rest) [] row rows =
      csvParseAux false (d :: rest) (unlTranslate f).reverse row rows := by
  have hdq : (d :: rest).head? ≠ some '"' := by
    rcases hd with rfl | rfl <;> simp
  rw [trWriteField]
  by_cases hq : f.any csvSpecial
  · rw [if_pos hq, List.cons_append, List.append_assoc, List.singleton_append,
      csvPA_quote_open, csvPA_consume_quoted (unlTranslate f) (d :: rest) []
        row rows hdq, List.append_nil]
  · rw [if_neg hq]
    have hns : ∀ c ∈ f, csvSpecial c = false := by
      intro c hc
      rw [Bool.eq_false_iff]
      intro hcs
      exact hq (List.any_eq_true.mpr ⟨c, hc, hcs⟩)
    rw [csvPA_consume_plain f hns (d :: rest) [] row rows, List.append_nil,
      unlTranslate_eq_self_no_cr f
        (fun c hc => (csvSpecial_false_facts c (hns c hc)).2.2.1)]

/-- The scanner consumes one translated serialized row and emits exactly
its translated fields as one record. -/
theorem csvPA_row (fs : List (List Char)) :
    ∀ (rest : List Char) (row : List (List Char))
      (rows : List (List (List Char))),
      fs ≠ [] → (fs.length = 1 → row ≠ []) →
      csvParseAux false (trJoinFields fs ++ '\n' :: rest) [] row rows =
        csvParseAux false rest [] []
          ((row.reverse ++ fs.map unlTranslate) :: rows) := by
  induction fs with
  | nil => intro _ _ _ h _; exact absurd rfl h
  | cons f fs ih =>
    intro rest row rows _ hrow
    cases fs with
    | nil =>
      have hrow1 : row ≠ [] := hrow (by simp)
      rw [show trJoinFields [f] = trWriteField f from rfl,
        csvPA_field f '\n' rest row rows (Or.inr rfl),
        csvPA_newline _ _ _ _ (Or.inr hrow1)]
      simp [List.reverse_cons]
    | cons f2 fs' =>
      rw [show trJoinFields (f :: f2 :: fs') =
          trWriteField f ++ ',' :: trJoinFields (f2 :: fs') from rfl,
        List.append_assoc, List.cons_append,
        csvPA_field f ',' _ row rows (Or.inl rfl), csvPA_comma,
        List.reverse_reverse,
        ih _ (unlTranslate f :: row) rows (by simp) (by simp)]
      simp [List.reverse_cons, List.append_assoc]

/-- The scanner parses a whole translated serialized table into the
translated rows, in order. -/
theorem csvPA_table (rws : List (List (List Char))) :
    ∀ (acc : List (List (List Char))), (∀ r ∈ rws, 2 ≤ r.length) →
      csvParseAux false (unlTranslate ((rws.map writeRow).flatten)) [] [] acc =
        acc.reverse ++ rws.map (fun r => r.map unlTranslate) := by
  induction rws with
  | nil =>
    intro acc _
    show csvParseAux false (unlTranslate []) [] [] acc = _
    simp [csvParseAux, unlTranslate]
  | cons r rws' ih =>
    intro acc hlen
    have hr : 2 ≤ r.length := hlen r (List.mem_cons_self r rws')
    have hrne : r ≠ [] := by
      intro h
      rw [h] at hr
      simp at hr
    rw [List.map_cons, List.flatten_cons, unlTranslate_writeRow, trRowChars,
      List.append_assoc]
    show csvParseAux false (trJoinFields r ++ '\n' ::
        unlTranslate ((rws'.map writeRow).flatten)) [] [] acc = _
    rw [csvPA_row r _ [] acc hrne (by intro h1; omega),
      ih _ (fun a ha => hlen a (List.mem_cons_of_mem r ha))]
    simp

/-- `csv.reader`, applied to the universal-newline-translated table file,
recovers the header record followed by each written record with its
fields newline-translated. -/
theorem csvRecords_table (rows : List ResultRecord) :
    csvRecords (unlTranslate (tableContent rows)) =
      headerFields :: rows.map (fun r => (recordFields r).map unlTranslate) := by
  have h1 : tableContent rows =
      ((headerFields :: rows.map recordFields).map writeRow).flatten := by
    simp only [tableContent, headerLine, recordLine, List.map_cons,
      List.flatten_cons, List.map_map]
    rfl
  have hlen : ∀ r ∈ headerFields :: rows.map recordFields, 2 ≤ r.length := by
    intro r hr
    rcases List.mem_cons.mp hr with rfl | hr2
    · decide
    · obtain ⟨x, _, rfl⟩ := List.mem_map.mp hr2
      simp [recordFields]
  rw [csvRecords, h1, csvPA_table _ [] hlen]
  simp only [List.reverse_nil, List.nil_append, List.map_cons]
  rw [show headerFields.map unlTranslate = headerFields from by decide]
  simp [List.map_map]

/-- Rendered naturals contain no CR. -/
theorem natToChars_no_cr (n : Nat) : ∀ c ∈ natToChars n, c ≠ '\r' :=
  fun c hc => (isDigit_facts c (natToChars_digits n c hc)).2.2.2

/-- Rendered integers contain no CR. -/
theorem intToChars_no_cr (z : Int) : ∀ c ∈ intToChars z, c ≠ '\r' := by
  intro c hc
  rw [intToChars] at hc
  by_cases hz : z < 0
  · rw [if_pos hz] at hc
    rcases List.mem_cons.mp hc with rfl | hc2
    · decide
    · exact natToChars_no_cr _ c hc2
  · rw [if_neg hz] at hc
    exact natToChars_no_cr _ c hc

/-- Rendered floats contain no CR. -/
theorem floatToChars_no_cr (f : PyFloat) : ∀ c ∈ floatToChars f, c ≠ '\r' := by
  intro c hc
  rw [floatToChars] at hc
  by_cases he : f.exp10 = 0
  · rw [if_pos he] at hc
    exact intToChars_no_cr _ c hc
  · rw [if_neg he] at hc
    simp only [List.mem_append, List.mem_cons] at hc
    rcases hc with (hsign | htake) | hdot | hdrop
    · by_cases hm : f.mantissa < 0
      · rw [if_pos hm] at hsign
        rcases List.mem_singleton.mp hsign with rfl
        decide
      · rw [if_neg hm] at hsign
        exact absurd hsign (List.not_mem_nil c)
    · exact (isDigit_facts c (padZeros_all_digits _ _ (natToChars_digits _) c
        (List.mem_of_mem_take htake))).2.2.2
    · subst hdot; decide
    · exact (isDigit_facts c (padZeros_all_digits _ _ (natToChars_digits _) c
        (List.mem_of_mem_drop hdrop))).2.2.2

/-- Translating a record's rendered fields touches only the two string
fields; numeric renderings are CR-free and unchanged. -/
theorem recordFields_translated (r : ResultRecord) :
    (recordFields r).map unlTranslate =
      [unlTranslate r.implementation.data, unlTranslate r.language.data,
       natToChars r.size, floatToChars r.time_sec, intToChars r.max_rss_kb,
       natToChars r.nodes, floatToChars r.solutions] := by
  simp only [recordFields, List.map_cons, List.map_nil]
  rw [unlTranslate_eq_self_no_cr _ (natToChars_no_cr r.size),
    unlTranslate_eq_self_no_cr _ (floatToChars_no_cr r.time_sec),
    unlTranslate_eq_self_no_cr _ (intToChars_no_cr r.max_rss_kb),
    unlTranslate_eq_self_no_cr _ (natToChars_no_cr r.nodes),
    unlTranslate_eq_self_no_cr _ (floatToChars_no_cr r.solutions)]

/-- Python `int` round-trips `str` of a natural number. -/
theorem parseIntChars_natToChars (n : Nat) :
    parseIntChars (natToChars n) = some (n : Int) := by
  have h := parseIntChars_intToChars (n : Int)
  rw [intToChars, if_neg (by omega), Int.natAbs_ofNat] at h
  exact h

/-- `DictReader` column access on the fixed header resolves each key to
its positional field. -/
theorem dictGet_fields (a1 a2 a3 a4 a5 a6 a7 : List Char) :
    dictGet headerFields [a1, a2, a3, a4, a5, a6, a7] "implementation".data = some a1 ∧
    dictGet headerFields [a1, a2, a3, a4, a5, a6, a7] "language".data = some a2 ∧
    dictGet headerFields [a1, a2, a3, a4, a5, a6, a7] "size".data = some a3 ∧
    dictGet headerFields [a1, a2, a3, a4, a5, a6, a7] "time_sec".data = some a4 ∧
    dictGet headerFields [a1, a2, a3, a4, a5, a6, a7] "max_rss_kb".data = some a5 ∧
    dictGet headerFields [a1, a2, a3, a4, a5, a6, a7] "nodes".data = some a6 ∧
    dictGet headerFields [a1, a2, a3, a4, a5, a6, a7] "solutions".data = some a7 :=
  ⟨rfl, rfl, rfl, rfl, rfl, rfl, rfl⟩

/-- Converting a read-back record recovers the written values exactly:
numeric fields parse back to the written numbers, string fields are the
translated originals. -/
theorem convertRow_record (r : ResultRecord) :
    convertRow headerFields ((recordFields r).map unlTranslate) =
      some (expectedPlotRow r) := by
  rw [recordFields_translated]
  obtain ⟨h1, h2, h3, h4, h5, h6, h7⟩ := dictGet_fields
    (unlTranslate r.implementation.data) (unlTranslate r.language.data)
    (natToChars r.size) (floatToChars r.time_sec) (intToChars r.max_rss_kb)
    (natToChars r.nodes) (floatToChars r.solutions)
  simp [convertRow, h1, h2, h3, h4, h5, h6, h7, parseIntChars_natToChars,
    parseFloatChars_floatToChars, parseIntChars_intToChars, expectedPlotRow]

/-- Mapping then traversing with a pointwise-successful conversion
succeeds with the pointwise images. -/
theorem mapM_map_some {α β γ : Type} (g : α → β) (f : β → Option γ) (h : α → γ)
    (l : List α) (hf : ∀ x ∈ l, f (g x) = some (h x)) :
    (l.map g).mapM f = some (l.map h) := by
  induction l with
  | nil => rfl
  | cons x xs ih =>
    rw [List.map_cons, List.mapM_cons, hf x (List.mem_cons_self x xs),
      ih (fun a ha => hf a (List.mem_cons_of_mem x ha)), List.map_cons]
    rfl

/-- C8: serializing any sequence of Result Records with `write_results`
and reading the file back with `read_rows` yields the same sequence —
the same number of rows in the same order, with every numeric field
(`size`, `time_sec`, `max_rss_kb`, `nodes`, `solutions`) equal as a
number to the value written (string fields may only undergo the reader's
universal-newline translation). -/
theorem C8_round_trip (rows : List ResultRecord) :
    read_rows (tableContent rows) = some (rows.map expectedPlotRow) ∧
    (rows.map expectedPlotRow).length = rows.length ∧
    ∀ r : ResultRecord,
      (expectedPlotRow r).size = (r.size : Int) ∧
      (expectedPlotRow r).time_sec = r.time_sec ∧
      (expectedPlotRow r).max_rss_kb = r.max_rss_kb ∧
      (expectedPlotRow r).nodes = (r.nodes : Int) ∧
      (expectedPlotRow r).solutions = r.solutions := by
  refine ⟨?_, List.length_map _ _, fun r => ⟨rfl, rfl, rfl, rfl, rfl⟩⟩
  rw [read_rows, csvRecords_table]
  dsimp only
  have hfilter : (rows.map (fun r => (recordFields r).map unlTranslate)).filter
      (fun x => !x.isEmpty) =
      rows.map (fun r => (recordFields r).map unlTranslate) := by
    rw [List.filter_eq_self]
    intro a ha
    obtain ⟨x, _, rfl⟩ := List.mem_map.mp ha
    simp [recordFields]
  rw [hfilter]
  exact mapM_map_some _ _ _ rows (fun x _ => convertRow_record x)

end NQueens
